import Mathlib

/-!
Shallow embedding of the light-rag hybrid retrieval / fusion / reranking
pipeline (`backend/services/reranking_service.py`,
`backend/services/search_service.py`,
`backend/services/query_expansion_service.py`,
`backend/utils/freshness_scoring.py`) together with theorems settling the
frozen claims about it.

Python floats are modelled as `ℚ` where the code only performs field
arithmetic and comparisons, and as `ℝ` where the code calls `math.exp` /
`math.log`.  Python dicts are modelled as insertion-ordered association
lists (`rrf_scores` / `result_lookup` are updated together in the source,
so they are fused into one association list carrying both payloads).
`sorted(..., key=..., reverse=True)` is a stable descending sort; stable
sorting is extensionally unique, so it is embedded as a stable insertion
sort `sortDescBy`.
-/

namespace LightRag

/-- A Python dict value appearing in `SearchResult.metadata`: a string, a
number, or Python `None` (produced by `dict.get` on a missing key). -/
inductive MetaVal (α : Type) where
  | str (s : String)
  | num (x : α)
  | null
deriving DecidableEq, Repr

/-- `backend/models/queries.py` `SearchResult`; `α` is the numeric type
used for scores (`ℚ` in the fusion pipeline, `ℝ` for freshness math). -/
structure SearchResult (α : Type) where
  id : String
  content : String
  source : String
  score : α
  metadata : List (String × MetaVal α)
deriving DecidableEq, Repr

/-- Python dict update `m[k] = v`: replace the value in place if the key
exists (keeping its position), otherwise append the new pair. -/
def minsert {α : Type} : List (String × MetaVal α) → String → MetaVal α →
    List (String × MetaVal α)
  | [], k, v => [(k, v)]
  | (k2, v2) :: rest, k, v =>
    if k2 = k then (k, v) :: rest else (k2, v2) :: minsert rest k v

/-- Python `m.get(k)` returning `none` when the key is absent. -/
def mget {α : Type} : List (String × MetaVal α) → String → Option (MetaVal α)
  | [], _ => none
  | (k2, v2) :: rest, k => if k2 = k then some v2 else mget rest k

/-- Python `m.get(k, default)` collapsed to a `MetaVal` (missing ↦ `null`),
mirroring `result.metadata.get("rrf_score")` in the cross-encoder. -/
def mgetD {α : Type} (m : List (String × MetaVal α)) (k : String) : MetaVal α :=
  match mget m k with
  | some v => v
  | none => MetaVal.null

/-- Stable insertion step for a descending sort keyed by `key`: walk past
elements strictly greater, insert before the first element whose key is
`≤ key x`, so earlier equal-keyed elements stay earlier. -/
def insertDescBy {β : Type} (key : β → ℚ) (x : β) : List β → List β
  | [] => [x]
  | y :: ys => if key x < key y then y :: insertDescBy key x ys else x :: y :: ys

/-- Stable descending sort by `key`, the embedding of Python
`sorted(l, key=key, reverse=True)` (Timsort is stable; stable sorts agree
extensionally). -/
def sortDescBy {β : Type} (key : β → ℚ) : List β → List β
  | [] => []
  | x :: xs => insertDescBy key x (sortDescBy key xs)

/-- One entry of the fused dict state: result id, accumulated RRF score
(`rrf_scores[id]`), and the last stored result (`result_lookup[id]`). -/
abbrev RRFEntry : Type := String × ℚ × SearchResult ℚ

namespace RRFFusion

/-- One loop iteration of `RRFFusion.fuse`:
`rrf_scores[r.id] = rrf_scores.get(r.id, 0) + inc` together with
`result_lookup[r.id] = r`.  A present key keeps its dict position and its
stored result is overwritten; a new key is appended. -/
def bump : List RRFEntry → SearchResult ℚ → ℚ → List RRFEntry
  | [], r, inc => [(r.id, inc, r)]
  | (k, v, old) :: rest, r, inc =>
    if k = r.id then (k, v + inc, r) :: rest
    else (k, v, old) :: bump rest r inc

/-- `for rank, result in enumerate(results, rank0): ...` over one input
list, adding `1/(kq + rank)` per result. -/
def addList (kq : ℚ) : List RRFEntry → List (SearchResult ℚ) → ℕ → List RRFEntry
  | st, [], _ => st
  | st, r :: rest, rank => addList kq (bump st r (1 / (kq + rank))) rest (rank + 1)

/-- The dict state after processing the keyword, semantic and graph lists
in that order (each enumerated from rank 1). -/
def finalState (kq : ℚ) (keyword_results semantic_results graph_results :
    List (SearchResult ℚ)) : List RRFEntry :=
  addList kq (addList kq (addList kq [] keyword_results 1) semantic_results 1)
    graph_results 1

/-- Build one fused output `SearchResult` from a sorted dict entry,
mirroring the list comprehension at the end of `fuse`. -/
def mkFused (e : RRFEntry) : SearchResult ℚ :=
  { id := e.1
    content := e.2.2.content
    source := e.2.2.source
    score := e.2.1
    metadata :=
      minsert (minsert e.2.2.metadata "rrf_score" (MetaVal.num e.2.1))
        "original_score" (MetaVal.num e.2.2.score) }

/-- `RRFFusion.fuse` (`reranking_service.py:13-50`): accumulate reciprocal
rank scores per id over the three lists, stably sort the dict items by
score descending, and rebuild results from the stored lookup. -/
def fuse (kq : ℚ) (keyword_results semantic_results graph_results :
    List (SearchResult ℚ)) : List (SearchResult ℚ) :=
  (sortDescBy (fun e => e.2.1)
    (finalState kq keyword_results semantic_results graph_results)).map mkFused

end RRFFusion

/-! ### Spec-side characterisations of the fusion algorithm -/

/-- The reciprocal-rank mass an id collects from one list, ranks counted
from `rank`: `Σ 1/(kq + r)` over the positions where the id occurs. -/
def scoreFrom (kq : ℚ) (id : String) : List (SearchResult ℚ) → ℕ → ℚ
  | [], _ => 0
  | r :: rest, rank =>
    (if r.id = id then 1 / (kq + rank) else 0) + scoreFrom kq id rest (rank + 1)

/-- Spec-side RRF score of an id: the sum of `1/(kq+r)` over every 1-based
rank `r` at which the id occurs in any of the three lists. -/
def rrfScoreSpec (kq : ℚ) (keyword_results semantic_results graph_results :
    List (SearchResult ℚ)) (id : String) : ℚ :=
  scoreFrom kq id keyword_results 1 + scoreFrom kq id semantic_results 1 +
    scoreFrom kq id graph_results 1

/-- Index of the first occurrence of `a` in `l` (length of `l` if absent);
used to speak about the order of first appearance across the input lists. -/
def idxOf (l : List String) (a : String) : ℕ :=
  match l with
  | [] => 0
  | b :: rest => if b = a then 0 else idxOf rest a + 1

/-- The ids of the three input lists in processing order
(keyword first, then semantic, then graph). -/
def allIds (keyword_results semantic_results graph_results :
    List (SearchResult ℚ)) : List String :=
  (keyword_results ++ semantic_results ++ graph_results).map (fun r => r.id)

/-- Record a key in first-appearance order: append it unless already seen. -/
def insertOnce (ks : List String) (a : String) : List String :=
  if a ∈ ks then ks else ks ++ [a]

/-- The distinct members of `l` in order of first appearance. -/
def firstDedup (l : List String) : List String := l.foldl insertOnce []

/-- The last occurrence of an id in a list (the occurrence whose content,
source and score survive the dict overwrites in `fuse`). -/
def findLastOcc (l : List (SearchResult ℚ)) (id : String) :
    Option (SearchResult ℚ) :=
  l.reverse.find? (fun r => decide (r.id = id))

/-! ### Cross-encoder reranker and reranking pipeline -/

namespace CrossEncoderReranker

/-- `CrossEncoderReranker.rerank` (`reranking_service.py:71-103`).  The
external cross-encoder model is abstracted as a deterministic pairwise
scorer `ce : query → document-content → score` (`model.predict` on the
`[query, content]` pairs).  Only the first `top_k` candidates are scored;
they are rebuilt with the model score and stably re-sorted descending. -/
def rerank (ce : String → String → ℚ) (query : String)
    (results : List (SearchResult ℚ)) (top_k : ℕ) : List (SearchResult ℚ) :=
  if results.isEmpty then []
  else
    let candidates := results.take top_k
    let reranked := candidates.map fun r =>
      { id := r.id
        content := r.content
        source := r.source
        score := ce query r.content
        metadata :=
          minsert (minsert (minsert r.metadata
            "cross_encoder_score" (MetaVal.num (ce query r.content)))
            "rrf_score" (mgetD r.metadata "rrf_score"))
            "original_score" (mgetD r.metadata "original_score") }
    sortDescBy (fun r => r.score) reranked

end CrossEncoderReranker

namespace RerankingService

/-- `RerankingService.process_results` (`reranking_service.py:113-130`):
fuse, then (if a cross-encoder is configured and the fused list is
non-empty) rerank the top 25 of the fused list, then truncate to
`final_k`.  `cross_encoder = none` models `use_cross_encoder=False`. -/
def process_results (cross_encoder : Option (String → String → ℚ))
    (query : String) (keyword_results semantic_results graph_results :
    List (SearchResult ℚ)) (final_k : ℕ) : List (SearchResult ℚ) :=
  let fused_results :=
    RRFFusion.fuse 60 keyword_results semantic_results graph_results
  let reranked_results :=
    match cross_encoder with
    | some ce =>
      if fused_results.isEmpty then fused_results
      else CrossEncoderReranker.rerank ce query fused_results 25
    | none => fused_results
  reranked_results.take final_k

/-- Modelled from the spec (§4.6): the pipeline as the spec words it, with
the rerank window an explicit parameter — the spec instantiates the window
with §4.3's `rerank_k`, the source hard-codes 25. -/
def process_results_spec (cross_encoder : Option (String → String → ℚ))
    (query : String) (keyword_results semantic_results graph_results :
    List (SearchResult ℚ)) (final_k rerank_window : ℕ) :
    List (SearchResult ℚ) :=
  let fused_results :=
    RRFFusion.fuse 60 keyword_results semantic_results graph_results
  let reranked_results :=
    match cross_encoder with
    | some ce =>
      if fused_results.isEmpty then fused_results
      else CrossEncoderReranker.rerank ce query fused_results rerank_window
    | none => fused_results
  reranked_results.take final_k

end RerankingService

/-! ### String helpers shared by the freshness scorer and the calculator

Implemented over the character list of the string so that concrete
instances evaluate by kernel reduction. -/

/-- Python `str.lower` on one character (exact on ASCII, which is all the
keyword matching below compares against). -/
def pyLowerChar (c : Char) : Char :=
  if 'A' ≤ c ∧ c ≤ 'Z' then Char.ofNat (c.toNat + 32) else c

/-- Python `s.lower()`. -/
def pyLower (s : String) : String := ⟨s.data.map pyLowerChar⟩

/-- Whether the first list is an initial segment of the second. -/
def startsWithCL : List Char → List Char → Bool
  | [], _ => true
  | _ :: _, [] => false
  | a :: as, b :: bs => a = b && startsWithCL as bs

/-- Whether `pat` occurs contiguously inside `text`. -/
def containsCL : List Char → List Char → Bool
  | pat, text =>
    if startsWithCL pat text then true
    else match text with
    | [] => false
    | _ :: rest => containsCL pat rest

/-- Python `pat in s` (substring containment). -/
def strContains (s pat : String) : Bool := containsCL pat.data s.data

/-- Helper for Python `s.split()`: walk the characters, collecting the
current word (reversed) and emitting it at each whitespace run. -/
def wordsAux : List Char → List Char → List (List Char)
  | cur, [] => if cur = [] then [] else [cur.reverse]
  | cur, c :: rest =>
    if c.isWhitespace then
      (if cur = [] then wordsAux [] rest else cur.reverse :: wordsAux [] rest)
    else wordsAux (c :: cur) rest

/-- `len(s.split())`: the number of maximal non-whitespace runs. -/
def pyWordCount (s : String) : ℕ := (wordsAux [] s.data).length

/-! ### Freshness scoring (`backend/utils/freshness_scoring.py`)

Timestamps are modelled as real-valued seconds; `timedelta.days` is the
floor of the difference in days (Python floors toward minus infinity).
Weights stored in the config are exact decimals, hence `ℚ`; the decay
computation calls `math.exp` / `math.log` and lives in `ℝ`. -/

/-- `FreshnessConfig` with its field defaults. -/
structure FreshnessConfig where
  half_life_days : ℕ := 30
  max_age_days : ℕ := 365
  base_weight : ℚ := 1/5
  temporal_queries_weight : ℚ := 2/5
  recent_threshold_days : ℕ := 7
  old_threshold_days : ℕ := 180

/-- The configuration `FreshnessConfig()` of the default scorer. -/
def defaultFreshnessConfig : FreshnessConfig := {}

/-- `FreshnessScore` (the `document_id` placeholder field, `str(created_at)`
in the source, is not modelled — no claim mentions it). -/
structure FreshnessScore where
  created_at : ℝ
  age_days : ℤ
  freshness_score : ℝ
  freshness_category : String
  boost_factor : ℝ

namespace FreshnessScorer

/-- `(current_time - created_at).days`: whole days, floored. -/
noncomputable def ageDays (created_at current_time : ℝ) : ℤ :=
  ⌊(current_time - created_at) / 86400⌋

/-- `FreshnessScorer.calculate_freshness_score`
(`freshness_scoring.py:42-100`): exponential decay with floor `min_score`,
plus the four-bucket category / boost-factor assignment. -/
noncomputable def calculate_freshness_score (cfg : FreshnessConfig)
    (created_at current_time : ℝ) : FreshnessScore :=
  let age_days := ageDays created_at current_time
  let decay_factor : ℝ := Real.log 2 / cfg.half_life_days
  let freshness_raw := Real.exp (-decay_factor * age_days)
  let min_score := Real.exp (-decay_factor * cfg.max_age_days)
  let freshness_score := max freshness_raw min_score
  let cb : String × ℝ :=
    if age_days ≤ cfg.recent_threshold_days then
      ("recent", 1 + (cfg.base_weight : ℝ) * (1/2))
    else if age_days ≤ cfg.old_threshold_days then ("moderate", 1)
    else if age_days ≤ cfg.max_age_days then
      ("old", 1 - (cfg.base_weight : ℝ) * (3/10))
    else ("very_old", 1 - (cfg.base_weight : ℝ) * (1/2))
  { created_at := created_at
    age_days := age_days
    freshness_score := freshness_score
    freshness_category := cb.1
    boost_factor := max cb.2 (1/10) }

/-- The fixed keyword list of `is_temporal_query`. -/
def temporal_keywords : List String :=
  ["recent", "latest", "new", "current", "today", "yesterday",
   "last week", "last month", "this year", "2024", "2023",
   "updated", "fresh", "modern", "contemporary", "now",
   "recently", "currently", "ongoing", "latest news"]

/-- `FreshnessScorer.is_temporal_query` (`freshness_scoring.py:102-119`):
any keyword occurs as a substring of the lower-cased query. -/
def is_temporal_query (query : String) : Bool :=
  temporal_keywords.any (fun kw => strContains (pyLower query) kw)

/-- `FreshnessScorer.calculate_weight_for_query`
(`freshness_scoring.py:121-133`). -/
def calculate_weight_for_query (cfg : FreshnessConfig) (query : String) : ℚ :=
  if is_temporal_query query then cfg.temporal_queries_weight
  else cfg.base_weight

/-- `FreshnessScorer.apply_freshness_boost` (`freshness_scoring.py:135-155`):
`original * (1 + (boost_factor - 1) * weight)`. -/
noncomputable def apply_freshness_boost (cfg : FreshnessConfig)
    (original_score : ℝ) (fs : FreshnessScore) (query : String) : ℝ :=
  original_score *
    (1 + (fs.boost_factor - 1) * (calculate_weight_for_query cfg query : ℝ))

/-- `FreshnessScorer.get_freshness_explanation`
(`freshness_scoring.py:157-175`). -/
def get_freshness_explanation (fs : FreshnessScore) : String :=
  let age_str := toString fs.age_days ++ " days old"
  if fs.freshness_category = "recent" then
    "Recent content (" ++ age_str ++ ") - boosted in ranking"
  else if fs.freshness_category = "moderate" then
    "Moderately fresh content (" ++ age_str ++ ") - neutral ranking"
  else if fs.freshness_category = "old" then
    "Older content (" ++ age_str ++ ") - slightly reduced ranking"
  else "Very old content (" ++ age_str ++ ") - reduced ranking"

end FreshnessScorer

/-! ### Search orchestration (`backend/services/search_service.py`)

The three strategy calls and the document-date table are external I/O: a
strategy call is an `Except` outcome (a raised exception or a produced
list), the `documents` table is a partial map from document name to
creation timestamp. -/

/-- `backend/models/queries.py` `SearchResults`. -/
structure SearchResults where
  query : String
  keyword_results : List (SearchResult ℝ)
  semantic_results : List (SearchResult ℝ)
  graph_results : List (SearchResult ℝ)
  total_results : ℕ

namespace SearchService

/-- The per-result boost branch of `_apply_freshness_scoring`
(`search_service.py:189-216`): rescore the result and append the six
freshness provenance keys. -/
noncomputable def boostResult (cfg : FreshnessConfig) (now : ℝ)
    (query : String) (created : ℝ) (r : SearchResult ℝ) : SearchResult ℝ :=
  let fs := FreshnessScorer.calculate_freshness_score cfg created now
  let boosted := FreshnessScorer.apply_freshness_boost cfg r.score fs query
  { id := r.id
    content := r.content
    source := r.source
    score := boosted
    metadata :=
      minsert (minsert (minsert (minsert (minsert (minsert r.metadata
        "freshness_score" (MetaVal.num fs.freshness_score))
        "freshness_category" (MetaVal.str fs.freshness_category))
        "age_days" (MetaVal.num (fs.age_days : ℝ)))
        "freshness_boost" (MetaVal.num fs.boost_factor))
        "original_score" (MetaVal.num r.score))
        "freshness_explanation"
        (MetaVal.str (FreshnessScorer.get_freshness_explanation fs)) }

/-- `SearchService._apply_freshness_scoring` (`search_service.py:164-221`):
early-return on an empty batch or when every source is `"unknown"`;
otherwise bulk-fetch creation dates for the non-`"unknown"` source names
(`docDates` models the `documents` table) and boost exactly the results
whose source resolved to a date, keeping the rest unchanged. -/
noncomputable def applyFreshnessScoring (cfg : FreshnessConfig)
    (docDates : String → Option ℝ) (now : ℝ)
    (results : List (SearchResult ℝ)) (query : String) :
    List (SearchResult ℝ) :=
  if results.isEmpty then results
  else
    let document_sources :=
      ((results.map (fun r => r.source)).filter (fun s => s ≠ "unknown")).dedup
    if document_sources.isEmpty then results
    else
      let doc_date_lookup : String → Option ℝ := fun name =>
        if name ∈ document_sources then docDates name else none
      results.map fun r =>
        match doc_date_lookup r.source with
        | some created => boostResult cfg now query created r
        | none => r

/-- Spec-side per-result description of freshness boosting: a result whose
source is `"unknown"` or has no creation date in the `documents` table is
returned unchanged, any other result is boosted. -/
noncomputable def boostOne (cfg : FreshnessConfig)
    (docDates : String → Option ℝ) (now : ℝ) (query : String)
    (r : SearchResult ℝ) : SearchResult ℝ :=
  match (if r.source = "unknown" then none else docDates r.source) with
  | some created => boostResult cfg now query created r
  | none => r

/-- `SearchService.search_all` (`search_service.py:223-267`): each
strategy outcome that is an exception is replaced by an empty list
(`return_exceptions=True` plus the `isinstance` checks), freshness scoring
is applied to the three lists, and `total_results` is the sum of their
lengths. -/
noncomputable def search_all (cfg : FreshnessConfig)
    (docDates : String → Option ℝ) (now : ℝ) (query : String)
    (keyword_outcome semantic_outcome graph_outcome :
      Except String (List (SearchResult ℝ))) : SearchResults :=
  let recover : Except String (List (SearchResult ℝ)) → List (SearchResult ℝ) :=
    fun o => match o with
    | Except.ok l => l
    | Except.error _ => []
  let keyword_results :=
    applyFreshnessScoring cfg docDates now (recover keyword_outcome) query
  let semantic_results :=
    applyFreshnessScoring cfg docDates now (recover semantic_outcome) query
  let graph_results :=
    applyFreshnessScoring cfg docDates now (recover graph_outcome) query
  { query := query
    keyword_results := keyword_results
    semantic_results := semantic_results
    graph_results := graph_results
    total_results :=
      keyword_results.length + semantic_results.length + graph_results.length }

end SearchService

/-! ### Adaptive top-k calculation
(`backend/services/query_expansion_service.py:103-145`) -/

/-- `QueryExpansions` (`query_expansion_service.py:10-15`). -/
structure QueryExpansions where
  original_query : String
  expanded_terms : List String
  synonyms : List String
  related_concepts : List String

/-- The k-value plan returned by `calculate_k_values`. -/
structure KValues where
  keyword_k : ℕ
  semantic_k : ℕ
  graph_k : ℕ
  rerank_k : ℕ
  final_k : ℕ
deriving DecidableEq, Repr

namespace AdaptiveTopKCalculator

/-- The question/analytical keyword set of `_query_complexity` (a Python
set, used only through membership-independent `any`). -/
def question_words : List String :=
  ["how", "why", "what", "when", "where", "compare", "analyze"]

/-- `AdaptiveTopKCalculator._query_complexity`
(`query_expansion_service.py:126-145`): average the two or three factors,
remap by `+0.5` and clamp to `[0.5, 1.5]`. -/
def query_complexity (query : String)
    (expansions : Option QueryExpansions) : ℚ :=
  let word_count := pyWordCount query
  let f1 : ℚ := min ((word_count : ℚ) / 8) 1
  let has_question :=
    question_words.any (fun w => strContains (pyLower query) w)
  let f2 : ℚ := if has_question then 4/5 else 2/5
  let factors : List ℚ :=
    match expansions with
    | some ex =>
      [f1, f2,
       min (((ex.expanded_terms ++ ex.synonyms ++
         ex.related_concepts).length : ℚ) / 8) 1]
    | none => [f1, f2]
  let avg := factors.sum / (factors.length : ℚ)
  max (1/2) (min (3/2) (avg + 1/2))

/-- `AdaptiveTopKCalculator.calculate_k_values`
(`query_expansion_service.py:111-124`); `int()` truncation of the
non-negative product is the floor. -/
def calculate_k_values (base_k max_k min_k : ℕ) (query : String)
    (expansions : Option QueryExpansions) : KValues :=
  let complexity := query_complexity query expansions
  let adjusted_k : ℕ :=
    max min_k (min max_k (⌊(base_k : ℚ) * complexity⌋).toNat)
  { keyword_k := adjusted_k
    semantic_k := adjusted_k
    graph_k := max 10 (adjusted_k / 2)
    rerank_k := min 25 (adjusted_k / 2)
    final_k := 5 }

end AdaptiveTopKCalculator

/-! ### State readers for the fused dict (proof-side definitions) -/

namespace RRFFusion

/-- `rrf_scores.get(id, 0)`: accumulated score of an id in the dict state. -/
def stScore : List RRFEntry → String → ℚ
  | [], _ => 0
  | e :: rest, id => if e.1 = id then e.2.1 else stScore rest id

/-- `result_lookup.get(id)`: the stored result of an id in the dict state. -/
def stRes : List RRFEntry → String → Option (SearchResult ℚ)
  | [], _ => none
  | e :: rest, id => if e.1 = id then some e.2.2 else stRes rest id

/-- The key sequence of the dict state (insertion order). -/
def stKeys (st : List RRFEntry) : List String := st.map (fun e => e.1)

end RRFFusion

end LightRag

/-! ## Theorems -/

namespace LightRag

namespace RRFFusion

lemma stScore_bump (st : List RRFEntry) (r : SearchResult ℚ) (inc : ℚ)
    (id : String) :
    stScore (bump st r inc) id =
      stScore st id + (if r.id = id then inc else 0) := by
  induction st with
  | nil =>
    by_cases h : r.id = id <;> simp [bump, stScore, h]
  | cons e rest ih =>
    obtain ⟨k, v, old⟩ := e
    by_cases hk : k = r.id
    · by_cases h : k = id
      · have h2 : r.id = id := hk.symm.trans h
        simp [bump, hk, stScore, h, h2]
      · have h2 : ¬ r.id = id := fun q => h (hk.trans q)
        simp [bump, hk, stScore, h, h2]
    · by_cases h : k = id
      · have h3 : ¬ r.id = id := fun q => hk (h.trans q.symm)
        have h4 : ¬ id = r.id := fun q => h3 q.symm
        simp [bump, hk, stScore, h, h3, h4]
      · simp [bump, hk, stScore, h, ih]

lemma stRes_bump (st : List RRFEntry) (r : SearchResult ℚ) (inc : ℚ)
    (id : String) :
    stRes (bump st r inc) id =
      if r.id = id then some r else stRes st id := by
  induction st with
  | nil =>
    by_cases h : r.id = id <;> simp [bump, stRes, h]
  | cons e rest ih =>
    obtain ⟨k, v, old⟩ := e
    by_cases hk : k = r.id
    · by_cases h : k = id
      · have h2 : r.id = id := hk.symm.trans h
        simp [bump, hk, stRes, h, h2]
      · have h2 : ¬ r.id = id := fun q => h (hk.trans q)
        simp [bump, hk, stRes, h, h2]
    · by_cases h : k = id
      · have h3 : ¬ r.id = id := fun q => hk (h.trans q.symm)
        have h4 : ¬ id = r.id := fun q => h3 q.symm
        simp [bump, hk, stRes, h, h3, h4]
      · simp [bump, hk, stRes, h, ih]

lemma stKeys_bump (st : List RRFEntry) (r : SearchResult ℚ) (inc : ℚ) :
    stKeys (bump st r inc) = insertOnce (stKeys st) r.id := by
  induction st with
  | nil => simp [bump, stKeys, insertOnce]
  | cons e rest ih =>
    obtain ⟨k, v, old⟩ := e
    by_cases hk : k = r.id
    · simp [bump, hk, stKeys, insertOnce]
    · have hne : ¬ r.id = k := fun q => hk q.symm
      have ih2 : List.map (fun e => e.1) (bump rest r inc) =
          insertOnce (List.map (fun e => e.1) rest) r.id := ih
      simp only [stKeys, bump, if_neg hk, List.map, ih2]
      by_cases hm : r.id ∈ List.map (fun e => e.1) rest
      · simp [insertOnce, hm, hne]
      · simp [insertOnce, hm, hne]

lemma stScore_addList (kq : ℚ) (id : String) (l : List (SearchResult ℚ)) :
    ∀ (st : List RRFEntry) (rank : ℕ),
      stScore (addList kq st l rank) id = stScore st id + scoreFrom kq id l rank := by
  induction l with
  | nil => intro st rank; simp [addList, scoreFrom]
  | cons r rest ih =>
    intro st rank
    simp only [addList, scoreFrom, ih, stScore_bump]
    ring

lemma stRes_addList (kq : ℚ) (id : String) (l : List (SearchResult ℚ)) :
    ∀ (st : List RRFEntry) (rank : ℕ),
      stRes (addList kq st l rank) id = (findLastOcc l id).or (stRes st id) := by
  induction l with
  | nil => intro st rank; simp [addList, findLastOcc]
  | cons r rest ih =>
    intro st rank
    simp only [addList, ih, stRes_bump, findLastOcc, List.reverse_cons,
      List.find?_append, Option.or_assoc]
    by_cases h : r.id = id <;> simp [List.find?, h, Option.or]

lemma stKeys_addList (kq : ℚ) (l : List (SearchResult ℚ)) :
    ∀ (st : List RRFEntry) (rank : ℕ),
      stKeys (addList kq st l rank) =
        (l.map (fun r => r.id)).foldl insertOnce (stKeys st) := by
  induction l with
  | nil => intro st rank; simp [addList]
  | cons r rest ih =>
    intro st rank
    simp only [addList, ih, stKeys_bump, List.map, List.foldl]

end RRFFusion

lemma mem_insertOnce (ks : List String) (a x : String) :
    x ∈ insertOnce ks a ↔ x ∈ ks ∨ x = a := by
  by_cases h : a ∈ ks
  · simp [insertOnce, h]
    exact fun hx => hx ▸ h
  · simp [insertOnce, h]

lemma nodup_insertOnce (ks : List String) (a : String) (h : ks.Nodup) :
    (insertOnce ks a).Nodup := by
  by_cases hm : a ∈ ks
  · simpa [insertOnce, hm] using h
  · rw [insertOnce, if_neg hm]
    refine List.Nodup.append h (List.nodup_singleton a) ?_
    intro b hb hba
    rw [List.mem_singleton] at hba
    exact hm (hba ▸ hb)

lemma nodup_foldl_insertOnce (l : List String) :
    ∀ ks : List String, ks.Nodup → (l.foldl insertOnce ks).Nodup := by
  induction l with
  | nil => intro ks h; simpa using h
  | cons a rest ih =>
    intro ks h
    exact ih (insertOnce ks a) (nodup_insertOnce ks a h)

lemma mem_foldl_insertOnce (l : List String) :
    ∀ ks x, x ∈ l.foldl insertOnce ks ↔ x ∈ ks ∨ x ∈ l := by
  induction l with
  | nil => intro ks x; simp
  | cons a rest ih =>
    intro ks x
    simp [List.foldl, ih, mem_insertOnce]
    constructor
    · rintro ((hx | rfl) | hx)
      · exact Or.inl hx
      · exact Or.inr (Or.inl rfl)
      · exact Or.inr (Or.inr hx)
    · rintro (hx | rfl | hx)
      · exact Or.inl (Or.inl hx)
      · exact Or.inl (Or.inr rfl)
      · exact Or.inr hx

lemma firstDedup_nodup (l : List String) : (firstDedup l).Nodup :=
  nodup_foldl_insertOnce l [] List.nodup_nil

lemma mem_firstDedup (l : List String) (x : String) :
    x ∈ firstDedup l ↔ x ∈ l := by
  simp [firstDedup, mem_foldl_insertOnce]

lemma idxOf_append_left (l l2 : List String) (a : String) (h : a ∈ l) :
    idxOf (l ++ l2) a = idxOf l a := by
  induction l with
  | nil => cases h
  | cons b rest ih =>
    by_cases hb : b = a
    · simp [idxOf, hb]
    · have : a ∈ rest := by
        rcases List.mem_cons.mp h with h1 | h1
        · exact absurd h1.symm hb
        · exact h1
      simp [idxOf, hb, ih this]

lemma idxOf_append_right (l l2 : List String) (a : String) (h : a ∉ l) :
    idxOf (l ++ l2) a = l.length + idxOf l2 a := by
  induction l with
  | nil => simp
  | cons b rest ih =>
    have hb : ¬ b = a := fun q => h (q ▸ List.mem_cons_self b rest)
    have h2 : a ∉ rest := fun q => h (List.mem_cons_of_mem b q)
    simp [idxOf, hb, ih h2]
    omega

lemma idxOf_lt_length (l : List String) (a : String) (h : a ∈ l) :
    idxOf l a < l.length := by
  induction l with
  | nil => cases h
  | cons b rest ih =>
    by_cases hb : b = a
    · simp [idxOf, hb]
    · have : a ∈ rest := by
        rcases List.mem_cons.mp h with h1 | h1
        · exact absurd h1.symm hb
        · exact h1
      simp [idxOf, hb]
      exact ih this

lemma firstDedup_append_singleton (l : List String) (x : String) :
    firstDedup (l ++ [x]) = insertOnce (firstDedup l) x := by
  simp [firstDedup, List.foldl_append]

/-- `firstDedup l` lists the distinct members of `l` ordered by the index
of their first occurrence in `l`. -/
lemma firstDedup_pairwise_idxOf (l : List String) :
    (firstDedup l).Pairwise (fun a b => idxOf l a < idxOf l b) := by
  induction l using List.reverseRecOn with
  | nil => simp [firstDedup]
  | append_singleton l x ih =>
    rw [firstDedup_append_singleton]
    by_cases hm : x ∈ firstDedup l
    · rw [insertOnce, if_pos hm]
      refine ih.imp_of_mem ?_
      intro a b ha hb hab
      have hal : a ∈ l := (mem_firstDedup l a).mp ha
      have hbl : b ∈ l := (mem_firstDedup l b).mp hb
      rw [idxOf_append_left _ _ _ hal, idxOf_append_left _ _ _ hbl]
      exact hab
    · rw [insertOnce, if_neg hm]
      rw [List.pairwise_append]
      refine ⟨?_, by simp, ?_⟩
      · refine ih.imp_of_mem ?_
        intro a b ha hb hab
        have hal : a ∈ l := (mem_firstDedup l a).mp ha
        have hbl : b ∈ l := (mem_firstDedup l b).mp hb
        rw [idxOf_append_left _ _ _ hal, idxOf_append_left _ _ _ hbl]
        exact hab
      · intro a ha b hb
        rw [List.mem_singleton] at hb
        rw [hb]
        have hal : a ∈ l := (mem_firstDedup l a).mp ha
        have hxl : x ∉ l := fun q => hm ((mem_firstDedup l x).mpr q)
        rw [idxOf_append_left _ _ _ hal, idxOf_append_right _ _ _ hxl]
        have h1 := idxOf_lt_length l a hal
        simp [idxOf]
        omega

/-! ### The stable descending sort -/

lemma perm_insertDescBy {β : Type} (key : β → ℚ) (x : β) (l : List β) :
    (insertDescBy key x l).Perm (x :: l) := by
  induction l with
  | nil => simp [insertDescBy]
  | cons y ys ih =>
    rw [insertDescBy]
    by_cases h : key x < key y
    · rw [if_pos h]
      exact (ih.cons y).trans (List.Perm.swap x y ys)
    · rw [if_neg h]

lemma perm_sortDescBy {β : Type} (key : β → ℚ) (l : List β) :
    (sortDescBy key l).Perm l := by
  induction l with
  | nil => simp [sortDescBy]
  | cons x xs ih =>
    rw [sortDescBy]
    exact (perm_insertDescBy key x (sortDescBy key xs)).trans (ih.cons x)

lemma mem_sortDescBy {β : Type} (key : β → ℚ) (l : List β) (x : β) :
    x ∈ sortDescBy key l ↔ x ∈ l :=
  (perm_sortDescBy key l).mem_iff

lemma length_sortDescBy {β : Type} (key : β → ℚ) (l : List β) :
    (sortDescBy key l).length = l.length :=
  (perm_sortDescBy key l).length_eq

/-- Inserting an element below everything strictly greater preserves the
"descending, ties in `P`-order" invariant, provided the inserted element is
`P`-before every current element. -/
lemma pairwise_insertDescBy {β : Type} (key : β → ℚ) (P : β → β → Prop)
    (x : β) (l : List β)
    (hl : l.Pairwise (fun a b => key b < key a ∨ (key a = key b ∧ P a b)))
    (hx : ∀ y ∈ l, P x y) :
    (insertDescBy key x l).Pairwise
      (fun a b => key b < key a ∨ (key a = key b ∧ P a b)) := by
  induction l with
  | nil => simp [insertDescBy]
  | cons y ys ih =>
    rw [insertDescBy]
    rcases List.pairwise_cons.mp hl with ⟨hy, hys⟩
    by_cases h : key x < key y
    · rw [if_pos h]
      refine List.pairwise_cons.mpr ⟨?_, ?_⟩
      · intro z hz
        rcases List.mem_cons.mp ((perm_insertDescBy key x ys).mem_iff.mp hz)
          with hz1 | hz1
        · rw [hz1]
          exact Or.inl h
        · exact hy z hz1
      · exact ih hys (fun z hz => hx z (List.mem_cons_of_mem y hz))
    · rw [if_neg h]
      refine List.pairwise_cons.mpr ⟨?_, hl⟩
      intro z hz
      rcases List.mem_cons.mp hz with h1 | h1
      · rw [h1]
        by_cases hlt : key y < key x
        · exact Or.inl hlt
        · have hxy : key x = key y := le_antisymm (not_lt.mp hlt) (not_lt.mp h)
          exact Or.inr ⟨hxy, hx y (List.mem_cons_self y ys)⟩
      · have hzy : key z ≤ key y := by
          rcases hy z h1 with h2 | h2
          · exact le_of_lt h2
          · exact le_of_eq h2.1.symm
        by_cases hlt : key z < key x
        · exact Or.inl hlt
        · have hxz : key x = key z :=
            le_antisymm (not_lt.mp hlt) (le_trans hzy (not_lt.mp h))
          exact Or.inr ⟨hxz, hx z (List.mem_cons_of_mem y h1)⟩

/-- Stability of the descending sort: if the input is `Pairwise P`, then in
the output earlier-in-`P` elements precede later ones whenever their keys
tie (and keys never increase along the output). -/
lemma pairwise_sortDescBy {β : Type} (key : β → ℚ) (P : β → β → Prop)
    (l : List β) (hl : l.Pairwise P) :
    (sortDescBy key l).Pairwise
      (fun a b => key b < key a ∨ (key a = key b ∧ P a b)) := by
  induction l with
  | nil => simp [sortDescBy]
  | cons x xs ih =>
    rw [sortDescBy]
    rcases List.pairwise_cons.mp hl with ⟨hx, hxs⟩
    refine pairwise_insertDescBy key P x (sortDescBy key xs) (ih hxs) ?_
    intro y hy
    exact hx y ((mem_sortDescBy key xs y).mp hy)

/-! ### Metadata dict lemmas -/

lemma mget_minsert_self {α : Type} (m : List (String × MetaVal α))
    (k : String) (v : MetaVal α) : mget (minsert m k v) k = some v := by
  induction m with
  | nil => simp [minsert, mget]
  | cons p rest ih =>
    obtain ⟨k2, v2⟩ := p
    by_cases h : k2 = k
    · simp [minsert, h, mget]
    · simp [minsert, h, mget, ih]

lemma mget_minsert_ne {α : Type} (m : List (String × MetaVal α))
    (k k2 : String) (v : MetaVal α) (h : ¬ k = k2) :
    mget (minsert m k v) k2 = mget m k2 := by
  induction m with
  | nil => simp [minsert, mget, h]
  | cons p rest ih =>
    obtain ⟨k3, v3⟩ := p
    by_cases h3 : k3 = k
    · rw [minsert, if_pos h3]
      rw [mget, if_neg h, mget, h3, if_neg h]
    · rw [minsert, if_neg h3]
      by_cases h4 : k3 = k2
      · rw [mget, if_pos h4, mget, if_pos h4]
      · rw [mget, if_neg h4, mget, if_neg h4, ih]

/-! ### Facts about the fused dict state -/

namespace RRFFusion

lemma stKeys_finalState (kq : ℚ)
    (kw sem gr : List (SearchResult ℚ)) :
    stKeys (finalState kq kw sem gr) = firstDedup (allIds kw sem gr) := by
  rw [finalState, stKeys_addList, stKeys_addList, stKeys_addList]
  rw [allIds, firstDedup]
  simp [List.map_append, List.foldl_append, stKeys]

lemma nodup_stKeys_finalState (kq : ℚ)
    (kw sem gr : List (SearchResult ℚ)) :
    (stKeys (finalState kq kw sem gr)).Nodup := by
  rw [stKeys_finalState]
  exact firstDedup_nodup _

lemma stScore_finalState (kq : ℚ) (kw sem gr : List (SearchResult ℚ))
    (id : String) :
    stScore (finalState kq kw sem gr) id = rrfScoreSpec kq kw sem gr id := by
  rw [finalState, stScore_addList, stScore_addList, stScore_addList]
  simp [stScore, rrfScoreSpec]

lemma findLastOcc_append (a b : List (SearchResult ℚ)) (id : String) :
    findLastOcc (a ++ b) id = (findLastOcc b id).or (findLastOcc a id) := by
  rw [findLastOcc, List.reverse_append, List.find?_append, findLastOcc,
    findLastOcc]

lemma stRes_finalState (kq : ℚ) (kw sem gr : List (SearchResult ℚ))
    (id : String) :
    stRes (finalState kq kw sem gr) id =
      findLastOcc (kw ++ sem ++ gr) id := by
  rw [finalState, stRes_addList, stRes_addList, stRes_addList]
  rw [findLastOcc_append, findLastOcc_append]
  simp [stRes, Option.or_assoc]

lemma entry_score_of_nodup (st : List RRFEntry)
    (h : (stKeys st).Nodup) :
    ∀ e ∈ st, e.2.1 = stScore st e.1 := by
  induction st with
  | nil => intro e he; cases he
  | cons f rest ih =>
    intro e he
    rw [stKeys, List.map_cons] at h
    rcases List.nodup_cons.mp h with ⟨hnm, hrest⟩
    rcases List.mem_cons.mp he with h1 | h1
    · rw [h1, stScore, if_pos rfl]
    · have hne : ¬ f.1 = e.1 := by
        intro q
        exact hnm (q ▸ List.mem_map_of_mem (fun x => x.1) h1)
      rw [stScore, if_neg hne]
      exact ih hrest e h1

lemma entry_res_of_nodup (st : List RRFEntry)
    (h : (stKeys st).Nodup) :
    ∀ e ∈ st, stRes st e.1 = some e.2.2 := by
  induction st with
  | nil => intro e he; cases he
  | cons f rest ih =>
    intro e he
    rw [stKeys, List.map_cons] at h
    rcases List.nodup_cons.mp h with ⟨hnm, hrest⟩
    rcases List.mem_cons.mp he with h1 | h1
    · rw [h1, stRes, if_pos rfl]
    · have hne : ¬ f.1 = e.1 := by
        intro q
        exact hnm (q ▸ List.mem_map_of_mem (fun x => x.1) h1)
      rw [stRes, if_neg hne]
      exact ih hrest e h1

/-- Every fused result's score is the spec-side reciprocal-rank sum of its
id over the three input lists. -/
lemma fuse_score_eq (kq : ℚ) (kw sem gr : List (SearchResult ℚ)) :
    ∀ r ∈ fuse kq kw sem gr, r.score = rrfScoreSpec kq kw sem gr r.id := by
  intro r hr
  rw [fuse] at hr
  rcases List.mem_map.mp hr with ⟨e, he, rfl⟩
  have he2 : e ∈ finalState kq kw sem gr :=
    (mem_sortDescBy _ _ e).mp he
  have h1 := entry_score_of_nodup _ (nodup_stKeys_finalState kq kw sem gr) e he2
  show e.2.1 = rrfScoreSpec kq kw sem gr e.1
  rw [h1, stScore_finalState]

/-- Every fused result carries content, source and `original_score` from
the last occurrence of its id across the input lists, and exposes its
fused score as `metadata.rrf_score`. -/
lemma fuse_carry (kq : ℚ) (kw sem gr : List (SearchResult ℚ)) :
    ∀ r ∈ fuse kq kw sem gr, ∃ orig : SearchResult ℚ,
      findLastOcc (kw ++ sem ++ gr) r.id = some orig ∧
      r.content = orig.content ∧ r.source = orig.source ∧
      mget r.metadata "rrf_score" = some (MetaVal.num r.score) ∧
      mget r.metadata "original_score" = some (MetaVal.num orig.score) := by
  intro r hr
  rw [fuse] at hr
  rcases List.mem_map.mp hr with ⟨e, he, rfl⟩
  have he2 : e ∈ finalState kq kw sem gr :=
    (mem_sortDescBy _ _ e).mp he
  have h1 := entry_res_of_nodup _ (nodup_stKeys_finalState kq kw sem gr) e he2
  refine ⟨e.2.2, ?_, rfl, rfl, ?_, ?_⟩
  · rw [show (mkFused e).id = e.1 from rfl, ← stRes_finalState, h1]
  · show mget (minsert (minsert e.2.2.metadata "rrf_score"
      (MetaVal.num e.2.1)) "original_score" (MetaVal.num e.2.2.score))
      "rrf_score" = some (MetaVal.num e.2.1)
    rw [mget_minsert_ne _ _ _ _ (by decide), mget_minsert_self]
  · exact mget_minsert_self _ _ _

/-- The fused output is ordered by strictly descending score, ties broken
by the first appearance of the id across the input lists. -/
lemma fuse_pairwise (kq : ℚ) (kw sem gr : List (SearchResult ℚ)) :
    (fuse kq kw sem gr).Pairwise (fun a b =>
      b.score < a.score ∨ (a.score = b.score ∧
        idxOf (allIds kw sem gr) a.id < idxOf (allIds kw sem gr) b.id)) := by
  have hkeys : (stKeys (finalState kq kw sem gr)).Pairwise
      (fun a b => idxOf (allIds kw sem gr) a < idxOf (allIds kw sem gr) b) := by
    rw [stKeys_finalState]
    exact firstDedup_pairwise_idxOf _
  have hstate : (finalState kq kw sem gr).Pairwise
      (fun e f => idxOf (allIds kw sem gr) e.1 < idxOf (allIds kw sem gr) f.1) := by
    have h2 := List.pairwise_map.mp
      (show ((finalState kq kw sem gr).map (fun e => e.1)).Pairwise
        (fun a b => idxOf (allIds kw sem gr) a < idxOf (allIds kw sem gr) b)
        from hkeys)
    exact h2
  have hsorted := pairwise_sortDescBy (fun e : RRFEntry => e.2.1)
    (fun e f : RRFEntry =>
      idxOf (allIds kw sem gr) e.1 < idxOf (allIds kw sem gr) f.1)
    _ hstate
  rw [fuse]
  refine List.Pairwise.map mkFused ?_ hsorted
  intro e f hef
  rcases hef with h1 | h1
  · exact Or.inl h1
  · exact Or.inr ⟨h1.1, h1.2⟩

end RRFFusion

/-- C1: with the default `k = 60`, `RRFFusion.fuse` returns a list in
which every result's score is the sum of `1/(60+r)` over every 1-based
rank `r` at which its id occurs in any input list (one term per
occurrence, empty lists contributing nothing), ordered by descending
accumulated score with equal-score ids in order of first appearance
across the lists (keyword, then semantic, then graph); in particular an
id at rank 1 in two lists (score `2/61`) outranks an id at rank 1 in one
list (score `1/61`). -/
theorem rrf_fuse_c1 :
    (∀ kw sem gr : List (SearchResult ℚ),
      (∀ r ∈ RRFFusion.fuse 60 kw sem gr,
        r.score = rrfScoreSpec 60 kw sem gr r.id) ∧
      (RRFFusion.fuse 60 kw sem gr).Pairwise (fun a b =>
        b.score < a.score ∨ (a.score = b.score ∧
          idxOf (allIds kw sem gr) a.id < idxOf (allIds kw sem gr) b.id))) ∧
    (RRFFusion.fuse 60
        [⟨"a", "ca", "s1", 9/10, []⟩] [⟨"a", "ca", "s1", 7/10, []⟩]
        [⟨"b", "cb", "s2", 8/10, []⟩]).map
      (fun r => (r.id, r.score)) = [("a", 2/61), ("b", 1/61)] := by
  constructor
  · intro kw sem gr
    exact ⟨RRFFusion.fuse_score_eq 60 kw sem gr,
      RRFFusion.fuse_pairwise 60 kw sem gr⟩
  · norm_num [RRFFusion.fuse, RRFFusion.finalState, RRFFusion.addList,
      RRFFusion.bump, sortDescBy, insertDescBy, RRFFusion.mkFused]

/-- Witness for C1: at the concrete input `kw = [a]`, `sem = [], gr = []`
the fused head result satisfies the score characterisation. -/
theorem rrf_fuse_c1_witness :
    (⟨"a", "ca", "s1", 1/61,
        [("rrf_score", MetaVal.num (1/61)),
         ("original_score", MetaVal.num (9/10))]⟩ : SearchResult ℚ).score =
      rrfScoreSpec 60 [⟨"a", "ca", "s1", 9/10, []⟩] [] []
        (⟨"a", "ca", "s1", 1/61,
          [("rrf_score", MetaVal.num (1/61)),
           ("original_score", MetaVal.num (9/10))]⟩ : SearchResult ℚ).id :=
  (rrf_fuse_c1.1 [⟨"a", "ca", "s1", 9/10, []⟩] [] []).1 _
    (by norm_num [RRFFusion.fuse, RRFFusion.finalState, RRFFusion.addList,
      RRFFusion.bump, sortDescBy, insertDescBy, RRFFusion.mkFused,
      minsert, (by decide : ("rrf_score" : String) ≠ "original_score")])

/-- Counterexample to C3: when id `"a"` occurs in the keyword list (score
`9/10`, content `"first content"`) and again in the semantic list (score
`1/10`, content `"second content"`), the fused result carries the content,
source and `original_score` of the *second* (last) occurrence, not of the
first list in which the id appeared. -/
theorem rrf_fuse_c3_counterexample :
    (RRFFusion.fuse 60 [⟨"a", "first content", "first source", 9/10, []⟩]
        [⟨"a", "second content", "second source", 1/10, []⟩] []).map
      (fun r => (r.content, r.source, mget r.metadata "original_score")) =
      [("second content", "second source", some (MetaVal.num (1/10)))] ∧
    ("second content", "second source") ≠ ("first content", "first source") := by
  constructor
  · norm_num [RRFFusion.fuse, RRFFusion.finalState, RRFFusion.addList,
      RRFFusion.bump, sortDescBy, insertDescBy, RRFFusion.mkFused,
      minsert, mget, (by decide : ("rrf_score" : String) ≠ "original_score")]
  · decide

/-- C3 amended: for every id in the fused output, `metadata.rrf_score` is
the accumulated fused score, and the carried content, source and
`metadata.original_score` come from the id's occurrence in the *last*
input list in which it appeared (lists processed keyword, semantic,
graph — each dict write overwrites the stored result). -/
theorem rrf_fuse_c3_amended :
    ∀ kw sem gr : List (SearchResult ℚ),
      ∀ r ∈ RRFFusion.fuse 60 kw sem gr, ∃ orig : SearchResult ℚ,
        findLastOcc (kw ++ sem ++ gr) r.id = some orig ∧
        r.content = orig.content ∧ r.source = orig.source ∧
        mget r.metadata "rrf_score" = some (MetaVal.num r.score) ∧
        r.score = rrfScoreSpec 60 kw sem gr r.id ∧
        mget r.metadata "original_score" = some (MetaVal.num orig.score) := by
  intro kw sem gr r hr
  rcases RRFFusion.fuse_carry 60 kw sem gr r hr with
    ⟨orig, h1, h2, h3, h4, h5⟩
  exact ⟨orig, h1, h2, h3, h4,
    RRFFusion.fuse_score_eq 60 kw sem gr r hr, h5⟩

/-- Witness for the amended C3 at the concrete two-list input: the fused
result for id `"a"` carries the semantic-list occurrence. -/
theorem rrf_fuse_c3_amended_witness :
    ∃ orig : SearchResult ℚ,
      findLastOcc ([⟨"a", "first content", "first source", 9/10, []⟩] ++
          [⟨"a", "second content", "second source", 1/10, []⟩] ++ [])
        (⟨"a", "second content", "second source", 2/61,
          [("rrf_score", MetaVal.num (2/61)),
           ("original_score", MetaVal.num (1/10))]⟩ : SearchResult ℚ).id =
        some orig ∧
      (⟨"a", "second content", "second source", 2/61,
        [("rrf_score", MetaVal.num (2/61)),
         ("original_score", MetaVal.num (1/10))]⟩ : SearchResult ℚ).content =
        orig.content ∧
      (⟨"a", "second content", "second source", 2/61,
        [("rrf_score", MetaVal.num (2/61)),
         ("original_score", MetaVal.num (1/10))]⟩ : SearchResult ℚ).source =
        orig.source ∧
      mget (⟨"a", "second content", "second source", 2/61,
        [("rrf_score", MetaVal.num (2/61)),
         ("original_score", MetaVal.num (1/10))]⟩ : SearchResult ℚ).metadata
        "rrf_score" = some (MetaVal.num (⟨"a", "second content",
          "second source", 2/61,
          [("rrf_score", MetaVal.num (2/61)),
           ("original_score", MetaVal.num (1/10))]⟩ : SearchResult ℚ).score) ∧
      (⟨"a", "second content", "second source", 2/61,
        [("rrf_score", MetaVal.num (2/61)),
         ("original_score", MetaVal.num (1/10))]⟩ : SearchResult ℚ).score =
        rrfScoreSpec 60 [⟨"a", "first content", "first source", 9/10, []⟩]
          [⟨"a", "second content", "second source", 1/10, []⟩] []
          (⟨"a", "second content", "second source", 2/61,
            [("rrf_score", MetaVal.num (2/61)),
             ("original_score", MetaVal.num (1/10))]⟩ : SearchResult ℚ).id ∧
      mget (⟨"a", "second content", "second source", 2/61,
        [("rrf_score", MetaVal.num (2/61)),
         ("original_score", MetaVal.num (1/10))]⟩ : SearchResult ℚ).metadata
        "original_score" = some (MetaVal.num orig.score) :=
  rrf_fuse_c3_amended [⟨"a", "first content", "first source", 9/10, []⟩]
    [⟨"a", "second content", "second source", 1/10, []⟩] [] _
    (by norm_num [RRFFusion.fuse, RRFFusion.finalState, RRFFusion.addList,
      RRFFusion.bump, sortDescBy, insertDescBy, RRFFusion.mkFused,
      minsert, (by decide : ("rrf_score" : String) ≠ "original_score")])

/-! ### Length facts for the cross-encoder stage (C9) -/

lemma rerank_length (ce : String → String → ℚ) (q : String)
    (results : List (SearchResult ℚ)) (top_k : ℕ) :
    (CrossEncoderReranker.rerank ce q results top_k).length =
      min top_k results.length := by
  cases results with
  | nil => simp [CrossEncoderReranker.rerank]
  | cons r rest =>
    simp [CrossEncoderReranker.rerank, length_sortDescBy, List.length_take]

lemma fuse_length (kq : ℚ) (kw sem gr : List (SearchResult ℚ)) :
    (RRFFusion.fuse kq kw sem gr).length =
      (firstDedup (allIds kw sem gr)).length := by
  have h := congrArg List.length (RRFFusion.stKeys_finalState kq kw sem gr)
  rw [RRFFusion.stKeys, List.length_map] at h
  rw [RRFFusion.fuse, List.length_map, length_sortDescBy, h]

/-- C9: `rerank` returns exactly `min top_k (number of candidates)`
results — candidates beyond `top_k` are discarded, not appended — and
since `process_results` calls it with the hard-coded window 25, the
enabled-cross-encoder pipeline's output length is
`min final_k (min 25 (number of distinct input ids))`. -/
theorem cross_encoder_c9 :
    (∀ (ce : String → String → ℚ) (q : String)
      (results : List (SearchResult ℚ)) (top_k : ℕ),
      (CrossEncoderReranker.rerank ce q results top_k).length =
        min top_k results.length) ∧
    (∀ (ce : String → String → ℚ) (q : String)
      (kw sem gr : List (SearchResult ℚ)) (fk : ℕ),
      (RerankingService.process_results (some ce) q kw sem gr fk).length =
        min fk (min 25 (firstDedup (allIds kw sem gr)).length)) := by
  refine ⟨rerank_length, ?_⟩
  intro ce q kw sem gr fk
  have hD := fuse_length 60 kw sem gr
  by_cases h : (RRFFusion.fuse 60 kw sem gr).isEmpty
  · have h0 : (RRFFusion.fuse 60 kw sem gr).length = 0 := by
      rw [List.isEmpty_iff] at h
      rw [h]
      rfl
    simp only [RerankingService.process_results, h, if_pos]
    rw [List.length_take, h0]
    omega
  · simp only [RerankingService.process_results, h, if_neg, Bool.false_eq_true,
      not_false_eq_true]
    rw [List.length_take, rerank_length]
    omega

/-- C10: with the cross-encoder stage disabled, `process_results` is a
pure function of the three input lists and `final_k` alone — it does not
even depend on the query — so two invocations with identical inputs
return identical ordered outputs, scores and metadata included. -/
theorem reranking_c10 :
    ∀ (q1 q2 : String) (kw sem gr : List (SearchResult ℚ)) (fk : ℕ),
      RerankingService.process_results none q1 kw sem gr fk =
        RerankingService.process_results none q2 kw sem gr fk := by
  intro q1 q2 kw sem gr fk
  rfl

/-- C2 amended: `process_results` fuses, then — when the cross-encoder is
configured and the fused list non-empty — reranks the top 25 (a constant,
not the calculator's `rerank_k`), then truncates to `final_k`; with the
stage disabled it is exactly fuse-then-truncate. -/
theorem reranking_c2_amended :
    ∀ (ce : String → String → ℚ) (q : String)
      (kw sem gr : List (SearchResult ℚ)) (fk : ℕ),
      RerankingService.process_results (some ce) q kw sem gr fk =
        RerankingService.process_results_spec (some ce) q kw sem gr fk 25 ∧
      RerankingService.process_results none q kw sem gr fk =
        (RRFFusion.fuse 60 kw sem gr).take fk := by
  intro ce q kw sem gr fk
  exact ⟨rfl, rfl⟩

/-- Counterexample to C2: `process_results` reranks the hard-coded top 25
of the fused list, not the top `rerank_k` computed by
`AdaptiveTopKCalculator`.  For the empty query with empty expansions the
calculator returns `rerank_k = 15`; with 16 fused candidates whose 16th
alone is scored highly by the cross-encoder, the pipeline returns the
16th candidate first, which the claimed `rerank_k`-window pipeline can
never surface. -/
theorem reranking_c2_counterexample :
    (RerankingService.process_results
        (some (fun _ c => if c = "hit" then (1 : ℚ) else 0)) ""
        [⟨"i01", "miss", "s", 1, []⟩,
        ⟨"i02", "miss", "s", 1, []⟩,
        ⟨"i03", "miss", "s", 1, []⟩,
        ⟨"i04", "miss", "s", 1, []⟩,
        ⟨"i05", "miss", "s", 1, []⟩,
        ⟨"i06", "miss", "s", 1, []⟩,
        ⟨"i07", "miss", "s", 1, []⟩,
        ⟨"i08", "miss", "s", 1, []⟩,
        ⟨"i09", "miss", "s", 1, []⟩,
        ⟨"i10", "miss", "s", 1, []⟩,
        ⟨"i11", "miss", "s", 1, []⟩,
        ⟨"i12", "miss", "s", 1, []⟩,
        ⟨"i13", "miss", "s", 1, []⟩,
        ⟨"i14", "miss", "s", 1, []⟩,
        ⟨"i15", "miss", "s", 1, []⟩,
        ⟨"i16", "hit", "s", 1, []⟩]
        [] [] 5).map (fun r => r.id) ≠
      (RerankingService.process_results_spec
        (some (fun _ c => if c = "hit" then (1 : ℚ) else 0)) ""
        [⟨"i01", "miss", "s", 1, []⟩,
        ⟨"i02", "miss", "s", 1, []⟩,
        ⟨"i03", "miss", "s", 1, []⟩,
        ⟨"i04", "miss", "s", 1, []⟩,
        ⟨"i05", "miss", "s", 1, []⟩,
        ⟨"i06", "miss", "s", 1, []⟩,
        ⟨"i07", "miss", "s", 1, []⟩,
        ⟨"i08", "miss", "s", 1, []⟩,
        ⟨"i09", "miss", "s", 1, []⟩,
        ⟨"i10", "miss", "s", 1, []⟩,
        ⟨"i11", "miss", "s", 1, []⟩,
        ⟨"i12", "miss", "s", 1, []⟩,
        ⟨"i13", "miss", "s", 1, []⟩,
        ⟨"i14", "miss", "s", 1, []⟩,
        ⟨"i15", "miss", "s", 1, []⟩,
        ⟨"i16", "hit", "s", 1, []⟩]
        [] [] 5
        ((AdaptiveTopKCalculator.calculate_k_values 50 100 20 ""
          (some ⟨"", [], [], []⟩)).rerank_k)).map (fun r => r.id) := by
  have hk : (AdaptiveTopKCalculator.calculate_k_values 50 100 20 ""
      (some ⟨"", [], [], []⟩)).rerank_k = 15 := by
    norm_num +decide [AdaptiveTopKCalculator.calculate_k_values,
      AdaptiveTopKCalculator.query_complexity,
      AdaptiveTopKCalculator.question_words, pyWordCount, wordsAux,
      strContains, containsCL, startsWithCL, pyLower, pyLowerChar,
      Int.toNat]
  rw [hk]
  norm_num +decide [RerankingService.process_results,
    RerankingService.process_results_spec, RRFFusion.fuse,
    RRFFusion.finalState, RRFFusion.addList, RRFFusion.bump, sortDescBy,
    insertDescBy, RRFFusion.mkFused, minsert, mget, mgetD,
    CrossEncoderReranker.rerank, List.isEmpty]

/-- C6: `calculate_k_values` is a pure function whose complexity
multiplier lies in `[1/2, 3/2]`; with defaults
`base_k = 50, max_k = 100, min_k = 20` it returns
`keyword_k = semantic_k = clamp(⌊50·complexity⌋, 20, 100)`,
`graph_k = max 10 (adjusted_k / 2)`, `rerank_k = min 25 (adjusted_k / 2)`
and `final_k = 5`, so `keyword_k, semantic_k ∈ [20, 100]`,
`graph_k ∈ [10, 50]` and `rerank_k ∈ [10, 25]`. -/
theorem adaptive_topk_c6 :
    ∀ (q : String) (e : Option QueryExpansions),
      ((1/2 : ℚ) ≤ AdaptiveTopKCalculator.query_complexity q e ∧
        AdaptiveTopKCalculator.query_complexity q e ≤ 3/2) ∧
      (AdaptiveTopKCalculator.calculate_k_values 50 100 20 q e).keyword_k =
        max 20 (min 100
          (⌊(50 : ℚ) * AdaptiveTopKCalculator.query_complexity q e⌋).toNat) ∧
      (AdaptiveTopKCalculator.calculate_k_values 50 100 20 q e).semantic_k =
        (AdaptiveTopKCalculator.calculate_k_values 50 100 20 q e).keyword_k ∧
      (AdaptiveTopKCalculator.calculate_k_values 50 100 20 q e).graph_k =
        max 10
          ((AdaptiveTopKCalculator.calculate_k_values 50 100 20 q e).keyword_k / 2) ∧
      (AdaptiveTopKCalculator.calculate_k_values 50 100 20 q e).rerank_k =
        min 25
          ((AdaptiveTopKCalculator.calculate_k_values 50 100 20 q e).keyword_k / 2) ∧
      (AdaptiveTopKCalculator.calculate_k_values 50 100 20 q e).final_k = 5 ∧
      20 ≤ (AdaptiveTopKCalculator.calculate_k_values 50 100 20 q e).keyword_k ∧
      (AdaptiveTopKCalculator.calculate_k_values 50 100 20 q e).keyword_k ≤ 100 ∧
      10 ≤ (AdaptiveTopKCalculator.calculate_k_values 50 100 20 q e).graph_k ∧
      (AdaptiveTopKCalculator.calculate_k_values 50 100 20 q e).graph_k ≤ 50 ∧
      10 ≤ (AdaptiveTopKCalculator.calculate_k_values 50 100 20 q e).rerank_k ∧
      (AdaptiveTopKCalculator.calculate_k_values 50 100 20 q e).rerank_k ≤ 25 := by
  intro q e
  constructor
  · constructor
    · rw [AdaptiveTopKCalculator.query_complexity.eq_def]
      exact le_max_left _ _
    · rw [AdaptiveTopKCalculator.query_complexity.eq_def]
      exact max_le (by norm_num) (min_le_left _ _)
  refine ⟨rfl, rfl, rfl, rfl, rfl, ?_⟩
  show 20 ≤ max 20 (min 100 _) ∧ _
  generalize (⌊(50 : ℚ) *
    AdaptiveTopKCalculator.query_complexity q e⌋).toNat = t
  simp only [AdaptiveTopKCalculator.calculate_k_values]
  omega

/-- C7: `is_temporal_query` is case-insensitive substring matching
against the fixed keyword list (true on "latest travel trends in 2024",
false on "what is a brand"); `calculate_weight_for_query` returns the
temporal weight `2/5` exactly on temporal queries and the base weight
`1/5` otherwise; and `apply_freshness_boost` computes
`original * (1 + weight · (boost_factor − 1))`. -/
theorem freshness_temporal_c7 :
    FreshnessScorer.is_temporal_query "latest travel trends in 2024" = true ∧
    FreshnessScorer.is_temporal_query "what is a brand" = false ∧
    (∀ q : String,
      FreshnessScorer.calculate_weight_for_query defaultFreshnessConfig q =
        if FreshnessScorer.is_temporal_query q then (2/5 : ℚ) else 1/5) ∧
    (∀ (o : ℝ) (fs : FreshnessScore) (q : String),
      FreshnessScorer.apply_freshness_boost defaultFreshnessConfig o fs q =
        o * (1 +
          (FreshnessScorer.calculate_weight_for_query defaultFreshnessConfig q : ℝ)
            * (fs.boost_factor - 1))) := by
  refine ⟨by decide, by decide, ?_, ?_⟩
  · intro q
    rfl
  · intro o fs q
    rw [FreshnessScorer.apply_freshness_boost]
    ring

/-! ### Freshness scoring at the orchestration boundary (C5, C8) -/

/-- C8: `_apply_freshness_scoring` acts independently on each result —
a result whose source is `"unknown"` or has no creation date in the
`documents` table is returned entirely unchanged (same id, content,
source, score and metadata, and no freshness keys added), while every
other result in the batch is boosted normally; being a total function it
never raises. -/
theorem search_freshness_c8 :
    ∀ (cfg : FreshnessConfig) (docDates : String → Option ℝ) (now : ℝ)
      (results : List (SearchResult ℝ)) (query : String),
      SearchService.applyFreshnessScoring cfg docDates now results query =
        results.map (SearchService.boostOne cfg docDates now query) ∧
      (∀ r : SearchResult ℝ,
        r.source = "unknown" ∨ docDates r.source = none →
        SearchService.boostOne cfg docDates now query r = r) := by
  intro cfg docDates now results query
  constructor
  · rw [SearchService.applyFreshnessScoring]
    by_cases h0 : results.isEmpty
    · rw [if_pos h0]
      rw [List.isEmpty_iff] at h0
      rw [h0, List.map_nil]
    · rw [if_neg h0]
      by_cases h1 :
        (((results.map (fun r => r.source)).filter
          (fun s => s ≠ "unknown")).dedup).isEmpty
      · rw [if_pos h1]
        rw [List.isEmpty_iff] at h1
        have hall : ∀ r ∈ results, r.source = "unknown" := by
          intro r hr
          by_contra hne
          have hmem : r.source ∈ ((results.map (fun r => r.source)).filter
              (fun s => s ≠ "unknown")).dedup :=
            List.mem_dedup.mpr (List.mem_filter.mpr
              ⟨List.mem_map_of_mem _ hr, by simpa using hne⟩)
          rw [h1] at hmem
          cases hmem
        refine ((List.map_congr_left ?_).trans (List.map_id results)).symm
        intro r hr
        rw [SearchService.boostOne, hall r hr]
        rfl
      · rw [if_neg h1]
        refine List.map_congr_left ?_
        intro r hr
        by_cases hu : r.source = "unknown"
        · have hnm : r.source ∉ ((results.map (fun r => r.source)).filter
              (fun s => s ≠ "unknown")).dedup := by
            intro hmem
            have := (List.mem_filter.mp (List.mem_dedup.mp hmem)).2
            simp [hu] at this
          beta_reduce
          rw [if_neg hnm, SearchService.boostOne]
          simp only [if_pos hu]
        · have hmem : r.source ∈ ((results.map (fun r => r.source)).filter
              (fun s => s ≠ "unknown")).dedup :=
            List.mem_dedup.mpr (List.mem_filter.mpr
              ⟨List.mem_map_of_mem _ hr, by simpa using hu⟩)
          beta_reduce
          rw [if_pos hmem, SearchService.boostOne]
          simp only [if_neg hu]
  · intro r hr
    rw [SearchService.boostOne]
    rcases hr with h | h
    · rw [if_pos h]
    · by_cases hu : r.source = "unknown"
      · rw [if_pos hu]
      · rw [if_neg hu, h]

/-- Witness for C8 at a concrete batch: a result with source
`"unknown"` is returned unchanged. -/
theorem search_freshness_c8_witness :
    SearchService.boostOne defaultFreshnessConfig (fun _ => none) 0 "q"
        (⟨"r1", "c", "unknown", 1, []⟩ : SearchResult ℝ) =
      (⟨"r1", "c", "unknown", 1, []⟩ : SearchResult ℝ) :=
  (search_freshness_c8 defaultFreshnessConfig (fun _ => none) 0
    [⟨"r1", "c", "unknown", 1, []⟩] "q").2 _ (Or.inl rfl)

/-- C5: `search_all` never propagates a strategy exception — a failing
strategy contributes an empty list, the other two strategies' outputs are
processed exactly as they would have been, and `total_results` is always
the sum of the lengths of the three returned lists. -/
theorem search_all_c5 :
    ∀ (cfg : FreshnessConfig) (docDates : String → Option ℝ) (now : ℝ)
      (q : String)
      (kwOut grOut : Except String (List (SearchResult ℝ))) (e : String),
      (SearchService.search_all cfg docDates now q kwOut
        (Except.error e) grOut).semantic_results = [] ∧
      (∀ semOut : Except String (List (SearchResult ℝ)),
        (SearchService.search_all cfg docDates now q kwOut semOut
          grOut).keyword_results =
        (SearchService.search_all cfg docDates now q kwOut
          (Except.error e) grOut).keyword_results ∧
        (SearchService.search_all cfg docDates now q kwOut semOut
          grOut).graph_results =
        (SearchService.search_all cfg docDates now q kwOut
          (Except.error e) grOut).graph_results) ∧
      (∀ kwList : List (SearchResult ℝ),
        (SearchService.search_all cfg docDates now q (Except.ok kwList)
          (Except.error e) grOut).keyword_results =
          SearchService.applyFreshnessScoring cfg docDates now kwList q) ∧
      (∀ o1 o2 o3 : Except String (List (SearchResult ℝ)),
        (SearchService.search_all cfg docDates now q o1 o2 o3).total_results =
          (SearchService.search_all cfg docDates now q o1 o2 o3).keyword_results.length +
          (SearchService.search_all cfg docDates now q o1 o2 o3).semantic_results.length +
          (SearchService.search_all cfg docDates now q o1 o2 o3).graph_results.length) := by
  intro cfg docDates now q kwOut grOut e
  refine ⟨rfl, fun semOut => ⟨rfl, rfl⟩, fun kwList => rfl,
    fun o1 o2 o3 => rfl⟩

/-! ### Freshness decay (C4) -/

/-- With the default configuration the freshness score is the decayed
exponential floored at the 365-day minimum. -/
lemma freshness_score_default (created now : ℝ) :
    (FreshnessScorer.calculate_freshness_score defaultFreshnessConfig
      created now).freshness_score =
      max (Real.exp (-(Real.log 2 / 30) *
          (FreshnessScorer.ageDays created now : ℝ)))
        (Real.exp (-(Real.log 2 / 30) * 365)) := by
  simp only [FreshnessScorer.calculate_freshness_score, defaultFreshnessConfig]
  norm_num

lemma log2_div30_nonneg : (0 : ℝ) ≤ Real.log 2 / 30 :=
  div_nonneg (Real.log_nonneg one_le_two) (by norm_num)

lemma exp_decay_365_lt_half :
    Real.exp (-(Real.log 2 / 30) * 365) < 1/2 := by
  rw [show ((1 : ℝ)/2) = Real.exp (-Real.log 2) by
    rw [Real.exp_neg, Real.exp_log] <;> norm_num]
  apply Real.exp_lt_exp.mpr
  have h2 : 0 < Real.log 2 := Real.log_pos (by norm_num)
  nlinarith

/-- C4 amended: with defaults, `calculate_freshness_score` returns
`max (exp(-ln2·age/30)) (exp(-ln2·365/30))`; the score is non-increasing
in `age_days`; `score(age 0) > score(age 30) > score(age 365)`; and for
every document not created in the future (`created_at ≤ current_time`)
the score lies within `[min_score, 1]`.  (The unqualified claim is false:
for future timestamps `age_days` is negative and the score exceeds 1.) -/
theorem freshness_c4_amended :
    (∀ created now : ℝ,
      (FreshnessScorer.calculate_freshness_score defaultFreshnessConfig
        created now).freshness_score =
        max (Real.exp (-(Real.log 2 / 30) *
            (FreshnessScorer.ageDays created now : ℝ)))
          (Real.exp (-(Real.log 2 / 30) * 365))) ∧
    (∀ c1 c2 now : ℝ,
      FreshnessScorer.ageDays c1 now ≤ FreshnessScorer.ageDays c2 now →
      (FreshnessScorer.calculate_freshness_score defaultFreshnessConfig c2
        now).freshness_score ≤
      (FreshnessScorer.calculate_freshness_score defaultFreshnessConfig c1
        now).freshness_score) ∧
    ((FreshnessScorer.calculate_freshness_score defaultFreshnessConfig
        (-(86400 * 30)) 0).freshness_score <
      (FreshnessScorer.calculate_freshness_score defaultFreshnessConfig 0
        0).freshness_score ∧
      (FreshnessScorer.calculate_freshness_score defaultFreshnessConfig
        (-(86400 * 365)) 0).freshness_score <
      (FreshnessScorer.calculate_freshness_score defaultFreshnessConfig
        (-(86400 * 30)) 0).freshness_score) ∧
    (∀ created now : ℝ, created ≤ now →
      Real.exp (-(Real.log 2 / 30) * 365) ≤
        (FreshnessScorer.calculate_freshness_score defaultFreshnessConfig
          created now).freshness_score ∧
      (FreshnessScorer.calculate_freshness_score defaultFreshnessConfig
        created now).freshness_score ≤ 1) := by
  have hd := log2_div30_nonneg
  refine ⟨freshness_score_default, ?_, ⟨?_, ?_⟩, ?_⟩
  · intro c1 c2 now h
    rw [freshness_score_default, freshness_score_default]
    refine max_le_max ?_ le_rfl
    apply Real.exp_le_exp.mpr
    have hc : ((FreshnessScorer.ageDays c1 now : ℤ) : ℝ) ≤
        ((FreshnessScorer.ageDays c2 now : ℤ) : ℝ) := Int.cast_le.mpr h
    nlinarith [mul_le_mul_of_nonneg_left hc hd]
  · rw [freshness_score_default, freshness_score_default]
    have h30 : FreshnessScorer.ageDays (-(86400 * 30) : ℝ) 0 = 30 := by
      rw [FreshnessScorer.ageDays]; norm_num
    have h0 : FreshnessScorer.ageDays (0 : ℝ) 0 = 0 := by
      rw [FreshnessScorer.ageDays]; norm_num
    rw [h30, h0]
    have hhalf : Real.exp (-(Real.log 2 / 30) * ((30 : ℤ) : ℝ)) = 1/2 := by
      push_cast
      rw [show (-(Real.log 2 / 30) * (30 : ℝ)) = -Real.log 2 by ring]
      rw [Real.exp_neg, Real.exp_log] <;> norm_num
    have hone : Real.exp (-(Real.log 2 / 30) * ((0 : ℤ) : ℝ)) = 1 := by
      push_cast
      rw [show (-(Real.log 2 / 30) * (0 : ℝ)) = 0 by ring, Real.exp_zero]
    rw [hhalf, hone]
    have hm := exp_decay_365_lt_half
    rw [max_eq_left (le_of_lt hm), max_eq_left (by linarith)]
    norm_num
  · rw [freshness_score_default, freshness_score_default]
    have h30 : FreshnessScorer.ageDays (-(86400 * 30) : ℝ) 0 = 30 := by
      rw [FreshnessScorer.ageDays]; norm_num
    have h365 : FreshnessScorer.ageDays (-(86400 * 365) : ℝ) 0 = 365 := by
      rw [FreshnessScorer.ageDays]; norm_num
    rw [h30, h365]
    have hhalf : Real.exp (-(Real.log 2 / 30) * ((30 : ℤ) : ℝ)) = 1/2 := by
      push_cast
      rw [show (-(Real.log 2 / 30) * (30 : ℝ)) = -Real.log 2 by ring]
      rw [Real.exp_neg, Real.exp_log] <;> norm_num
    have hm := exp_decay_365_lt_half
    have h365c : Real.exp (-(Real.log 2 / 30) * ((365 : ℤ) : ℝ)) =
        Real.exp (-(Real.log 2 / 30) * 365) := by
      push_cast
      rfl
    rw [hhalf, h365c, max_self, max_eq_left (le_of_lt hm)]
    exact hm
  · intro created now h
    rw [freshness_score_default]
    constructor
    · exact le_max_right _ _
    · have ha : (0 : ℤ) ≤ FreshnessScorer.ageDays created now := by
        rw [FreshnessScorer.ageDays]
        exact Int.floor_nonneg.mpr
          (div_nonneg (sub_nonneg.mpr h) (by norm_num))
      have hac : (0 : ℝ) ≤ ((FreshnessScorer.ageDays created now : ℤ) : ℝ) := by
        exact_mod_cast ha
      refine max_le ?_ ?_
      · rw [show (1 : ℝ) = Real.exp 0 from Real.exp_zero.symm]
        apply Real.exp_le_exp.mpr
        nlinarith
      · rw [show (1 : ℝ) = Real.exp 0 from Real.exp_zero.symm]
        apply Real.exp_le_exp.mpr
        nlinarith

/-- Witness for the amended C4: a document two days old scores at least
as high as one three days old, and a one-day-old document's score lies in
`[min_score, 1]`. -/
theorem freshness_c4_amended_witness :
    ((FreshnessScorer.calculate_freshness_score defaultFreshnessConfig 0
        (86400 * 3)).freshness_score ≤
      (FreshnessScorer.calculate_freshness_score defaultFreshnessConfig
        (86400 * 2) (86400 * 3)).freshness_score) ∧
    (Real.exp (-(Real.log 2 / 30) * 365) ≤
      (FreshnessScorer.calculate_freshness_score defaultFreshnessConfig 0
        86400).freshness_score ∧
      (FreshnessScorer.calculate_freshness_score defaultFreshnessConfig 0
        86400).freshness_score ≤ 1) :=
  ⟨freshness_c4_amended.2.1 (86400 * 2) 0 (86400 * 3) (by
      rw [FreshnessScorer.ageDays, FreshnessScorer.ageDays]
      norm_num),
    freshness_c4_amended.2.2.2 0 86400 (by norm_num)⟩

/-- Counterexample to C4: the claimed bound `freshness_score ≤ 1` fails
for a document whose `created_at` lies 30 days in the future — the age is
`-30` days and the score evaluates to `exp(ln 2) = 2`. -/
theorem freshness_c4_counterexample :
    1 < (FreshnessScorer.calculate_freshness_score defaultFreshnessConfig
      (86400 * 30) 0).freshness_score := by
  rw [freshness_score_default]
  have hage : FreshnessScorer.ageDays (86400 * 30 : ℝ) 0 = -30 := by
    rw [FreshnessScorer.ageDays]
    norm_num
  rw [hage]
  have h2 : Real.exp (-(Real.log 2 / 30) * ((-30 : ℤ) : ℝ)) = 2 := by
    push_cast
    rw [show (-(Real.log 2 / 30) * (-30 : ℝ)) = Real.log 2 by ring]
    exact Real.exp_log (by norm_num)
  calc (1 : ℝ) < 2 := one_lt_two
  _ = Real.exp (-(Real.log 2 / 30) * ((-30 : ℤ) : ℝ)) := h2.symm
  _ ≤ _ := le_max_left _ _

end LightRag
